import Mathlib

/-!
Verification development for the GoDaddy-DNS-CLI repository.

Shallow embedding of the DNS state reconciliation and rate-limited bulk
execution engine:
  * the record model (`godaddy_cli/core/api_client.py`, class `DNSRecord`),
  * the plan generator (`godaddy_cli/commands/deploy.py`,
    `_generate_deployment_plan` / `_records_differ`),
  * the apply flow (`godaddy_cli/commands/deploy.py`, `apply_deployment`),
  * the rate limiter (`godaddy_cli/core/api_client.py`, class `RateLimiter`),
  * the bulk executors (`GoDaddyAPIClient.bulk_update_records` and
    `simple_api_client.APIClient.bulk_add_records`),
  * the error taxonomy (`godaddy_cli/core/exceptions.py`, `handle_api_error`).

Python dicts are embedded as association lists in insertion order with
no duplicate keys; the HTTP transport is a parameter returning either a
response or an `APIError`, mirroring how `_request` surfaces outcomes.
-/

/-- DNS record dataclass, `api_client.py` lines 35-47.  Field order and
defaults follow the Python dataclass; optional ints become `Option Int`. -/
structure DNSRecord where
  name : String
  type : String
  data : String
  ttl : Int := 3600
  priority : Option Int := none
  port : Option Int := none
  weight : Option Int := none
  service : Option String := none
  protocol : Option String := none
deriving DecidableEq

/-- API error raised by `_request` (`api_client.py` lines 344-354).  The
`response_data` dict is rendered as a string association list. -/
structure APIError where
  message : String
  status_code : Int
  response_data : List (String × String) := []
deriving DecidableEq

/-- Dict key used for record identity, the Python f-string joining
`r.name`, a dot and `r.type` (`deploy.py` lines 52-55 and 63-66). -/
def changeKey (name type : String) : String := name ++ "." ++ type

/-- Key of a record, `changeKey` applied to its own name and type. -/
def recordKey (r : DNSRecord) : String := changeKey r.name r.type

/-- Python `state[key]` / `key in state` on a dict embedded as an
association list in insertion order (no duplicate keys). -/
def dictGet (m : List (String × DNSRecord)) (k : String) : Option DNSRecord :=
  (m.find? (fun p => p.1 == k)).map Prod.snd

/-- The record sub-dict stored inside plan entries: `_generate_deployment_plan`
serialises only `name`, `type`, `data`, `ttl` and `priority`
(`deploy.py` lines 355-368 and 374-380); `weight` and `port` are dropped. -/
structure PlanRecord where
  name : String
  type : String
  data : String
  ttl : Int
  priority : Option Int
deriving DecidableEq

/-- Serialisation of a `DNSRecord` into a plan entry sub-dict
(`deploy.py` lines 355-368): the five keys written by the source. -/
def serializeRecord (r : DNSRecord) : PlanRecord :=
  { name := r.name, type := r.type, data := r.data, ttl := r.ttl, priority := r.priority }

/-- One entry of `plan['create']` (`deploy.py` lines 371-381). -/
structure CreateChange where
  name : String
  type : String
  record : PlanRecord
deriving DecidableEq

/-- One entry of `plan['update']` (`deploy.py` lines 352-369). -/
structure UpdateChange where
  name : String
  type : String
  old_record : PlanRecord
  new_record : PlanRecord
deriving DecidableEq

/-- One entry of `plan['delete']` (`deploy.py` lines 386-389). -/
structure DeleteChange where
  name : String
  type : String
deriving DecidableEq

/-- The three-list deployment plan (`deploy.py` lines 341-345). -/
structure DeploymentPlan where
  create : List CreateChange
  update : List UpdateChange
  delete : List DeleteChange
deriving DecidableEq

/-- `_records_differ` (`deploy.py` lines 394-402): field-by-field comparison
of `data`, `ttl`, `priority`, `weight` and `port`. -/
def records_differ (record1 record2 : DNSRecord) : Bool :=
  record1.data != record2.data ||
  record1.ttl != record2.ttl ||
  record1.priority != record2.priority ||
  record1.weight != record2.weight ||
  record1.port != record2.port

/-- Contribution of the first loop of `_generate_deployment_plan`
(`deploy.py` lines 348-381) to `plan['create']`: iterate `desired_state`
in dict order, and for a key absent from `current_state` append a create
entry built from the desired record. -/
def plan_create_changes (current_state : List (String × DNSRecord)) :
    List (String × DNSRecord) → List CreateChange
  | [] => []
  | (key, desired_record) :: rest =>
    match dictGet current_state key with
    | some _ => plan_create_changes current_state rest
    | none =>
      { name := desired_record.name, type := desired_record.type,
        record := serializeRecord desired_record } :: plan_create_changes current_state rest

/-- Contribution of the first loop of `_generate_deployment_plan`
(`deploy.py` lines 348-369) to `plan['update']`: for a key present in
`current_state` whose records differ, append an update entry carrying the
serialised old and new records. -/
def plan_update_changes (current_state : List (String × DNSRecord)) :
    List (String × DNSRecord) → List UpdateChange
  | [] => []
  | (key, desired_record) :: rest =>
    match dictGet current_state key with
    | some current_record =>
      if records_differ current_record desired_record then
        { name := desired_record.name, type := desired_record.type,
          old_record := serializeRecord current_record,
          new_record := serializeRecord desired_record } :: plan_update_changes current_state rest
      else
        plan_update_changes current_state rest
    | none => plan_update_changes current_state rest

/-- Second loop of `_generate_deployment_plan` (`deploy.py` lines 384-389):
keys of `current_state` absent from `desired_state` become delete entries. -/
def plan_delete_changes (desired_state : List (String × DNSRecord)) :
    List (String × DNSRecord) → List DeleteChange
  | [] => []
  | (key, current_record) :: rest =>
    match dictGet desired_state key with
    | some _ => plan_delete_changes desired_state rest
    | none =>
      { name := current_record.name, type := current_record.type } ::
        plan_delete_changes desired_state rest

/-- `_generate_deployment_plan` (`deploy.py` lines 338-391), with the single
pass over `desired_state` split into its per-list contributions (the loop
appends to the two independent lists in iteration order). -/
def generate_deployment_plan (current_state desired_state : List (String × DNSRecord)) :
    DeploymentPlan :=
  { create := plan_create_changes current_state desired_state,
    update := plan_update_changes current_state desired_state,
    delete := plan_delete_changes desired_state current_state }

/-- `DNSRecord.from_api_dict` (`api_client.py` lines 70-81) applied to a plan
entry sub-dict: the serialised dicts hold only `name`, `type`, `data`, `ttl`
and `priority`, so `data.get` yields `None` for `port` and `weight` and the
dataclass defaults leave `service` and `protocol` unset. -/
def record_from_plan_dict (p : PlanRecord) : DNSRecord :=
  { name := p.name, type := p.type, data := p.data, ttl := p.ttl,
    priority := p.priority, port := none, weight := none,
    service := none, protocol := none }

/-- Recursion core of `chunkList`, structural over a fuel that starts at the
list length: each step takes one batch of `batch_size` elements off the front.
When `0 < batch_size` every step consumes at least one element, so the fuel
(initialised to the length) is never exhausted. -/
def chunkListGo (batch_size : Nat) : Nat → List α → List (List α)
  | _, [] => []
  | 0, x :: xs => [x :: xs]
  | fuel + 1, x :: xs =>
    (x :: xs.take (batch_size - 1)) :: chunkListGo batch_size fuel (xs.drop (batch_size - 1))

/-- Python list slicing loop `for i in range(0, len(records), batch_size)`
with `batch = records[i:i + batch_size]` (`api_client.py` lines 271-272),
as a chunking function.  For `batch_size = 0` the Python loop raises
`ValueError`; theorems about it therefore assume `0 < batch_size`. -/
def chunkList (batch_size : Nat) (l : List α) : List (List α) :=
  chunkListGo batch_size l.length l

/-- One wire operation issued by `apply_deployment`: either an individual
`client.delete_dns_record` call (`deploy.py` line 213) or one PATCH batch
submitted inside `client.bulk_update_records` (`deploy.py` line 234,
`api_client.py` line 276). -/
inductive ApplyOp where
  | deleteRecord (type name : String)
  | patchBatch (records : List DNSRecord)
deriving DecidableEq

/-- Whether an `ApplyOp` is a delete call. -/
def ApplyOp.isDelete : ApplyOp → Bool
  | .deleteRecord _ _ => true
  | .patchBatch _ => false

/-- Records submitted through `bulk_update_records` by `apply_deployment`
(`deploy.py` lines 222-230): every create entry record, then every update
entry new record, each re-parsed with `DNSRecord.from_api_dict`. -/
def apply_update_records (plan : DeploymentPlan) : List DNSRecord :=
  plan.create.map (fun change => record_from_plan_dict change.record) ++
    plan.update.map (fun change => record_from_plan_dict change.new_record)

/-- Wire call order of `apply_deployment` (`deploy.py` lines 205-237): the
sequential loop over `plan['delete']` issues and completes every delete call,
then `bulk_update_records` submits the create and update records in batches. -/
def apply_deployment_trace (plan : DeploymentPlan) (batch_size : Nat) : List ApplyOp :=
  plan.delete.map (fun change => ApplyOp.deleteRecord change.type change.name) ++
    (chunkList batch_size (apply_update_records plan)).map ApplyOp.patchBatch

/-- String form of an `APIError` (`api_client.py` lines 353-354). -/
def apiErrorStr (e : APIError) : String :=
  "API Error (" ++ toString e.status_code ++ "): " ++ e.message

/-- Aggregate bulk outcome dict with keys success, failed and errors
(`api_client.py` line 268, `simple_api_client.py` line 197). -/
structure BulkResult where
  success : Nat
  failed : Nat
  errors : List String
deriving DecidableEq

/-- Batch loop body of `GoDaddyAPIClient.bulk_update_records`
(`api_client.py` lines 270-281): each batch is sent as one PATCH through the
transport; on success the whole batch length is added to `success`, on
`APIError` the whole batch length is added to `failed` with a numbered error
message.  `idx` is the 1-based batch number `i // batch_size + 1`. -/
def bulk_update_batches (send : List DNSRecord → Except APIError Unit) :
    Nat → List (List DNSRecord) → BulkResult
  | _, [] => { success := 0, failed := 0, errors := [] }
  | idx, batch :: rest =>
    let r := bulk_update_batches send (idx + 1) rest
    match send batch with
    | .ok _ => { success := r.success + batch.length, failed := r.failed, errors := r.errors }
    | .error e =>
      { success := r.success, failed := r.failed + batch.length,
        errors := ("Batch " ++ toString idx ++ ": " ++ apiErrorStr e) :: r.errors }

/-- `GoDaddyAPIClient.bulk_update_records` (`api_client.py` lines 265-283)
over an abstract transport `send` standing for the PATCH `_request` call. -/
def bulk_update_records (send : List DNSRecord → Except APIError Unit)
    (records : List DNSRecord) (batch_size : Nat) : BulkResult :=
  bulk_update_batches send 1 (chunkList batch_size records)

/-- `APIClient.bulk_add_records` (`simple_api_client.py` lines 194-220):
one PATCH per record; any exception from the request counts the record as
failed with a per-record error message, success otherwise. -/
def bulk_add_records (send : DNSRecord → Except String Unit) :
    List DNSRecord → BulkResult
  | [] => { success := 0, failed := 0, errors := [] }
  | record :: rest =>
    let r := bulk_add_records send rest
    match send record with
    | .ok _ => { success := r.success + 1, failed := r.failed, errors := r.errors }
    | .error e =>
      { success := r.success, failed := r.failed + 1,
        errors := (record.name ++ " (" ++ record.type ++ "): " ++ e) :: r.errors }

/-- Status handling of `GoDaddyAPIClient._request` (`api_client.py` lines
179-183): any response status of at least 400 raises `APIError` carrying the
message, the status code and the response body; otherwise the body is
returned.  No branch retries. -/
def request_outcome (status : Int) (message : String)
    (response_data : List (String × String)) : Except APIError (List (String × String)) :=
  if 400 ≤ status then Except.error { message := message, status_code := status,
                                      response_data := response_data }
  else Except.ok response_data

/-- `GoDaddyAPIClient.create_dns_record` (`api_client.py` lines 227-234):
`True` when the PATCH `_request` returns, `False` on any `APIError`. -/
def create_dns_record (outcome : Except APIError (List (String × String))) : Bool :=
  match outcome with
  | .ok _ => true
  | .error _ => false

/-- `GoDaddyAPIClient.update_dns_record` (`api_client.py` lines 236-244):
`True` when the PUT `_request` returns, `False` on any `APIError`. -/
def update_dns_record (outcome : Except APIError (List (String × String))) : Bool :=
  match outcome with
  | .ok _ => true
  | .error _ => false

/-- `GoDaddyAPIClient.delete_dns_record` (`api_client.py` lines 246-253):
`True` when the DELETE `_request` returns, `False` on any `APIError`. -/
def delete_dns_record (outcome : Except APIError (List (String × String))) : Bool :=
  match outcome with
  | .ok _ => true
  | .error _ => false

/-- Exception classes raised by `handle_api_error` (`exceptions.py`),
identified by their kind; `rateLimit` carries the parsed Retry-After value. -/
inductive ApiErrorKind where
  | badRequest
  | authentication
  | forbidden
  | notFound
  | conflict
  | rateLimit (retry_after : Option Int)
  | server
  | generic (status : Int)
deriving DecidableEq

/-- Retry-After header parsing in `handle_api_error` (`exceptions.py` lines
191-196): `int(retry_after)` with `ValueError` mapped to `None`. -/
def parse_retry_after (header : Option String) : Option Int :=
  header.bind (fun s => s.toInt?)

/-- `handle_api_error` (`exceptions.py` lines 161-201): status 200 returns
normally (`none`); every other status raises the matching exception class. -/
def handle_api_error (status : Int) (retry_after_header : Option String) :
    Option ApiErrorKind :=
  if status = 200 then none
  else if status = 400 then some .badRequest
  else if status = 401 then some .authentication
  else if status = 403 then some .forbidden
  else if status = 404 then some .notFound
  else if status = 409 then some .conflict
  else if status = 429 then some (.rateLimit (parse_retry_after retry_after_header))
  else if 500 ≤ status then some .server
  else some (.generic status)

/-- Pruning step of `RateLimiter.acquire` (`api_client.py` lines 122-123):
keep the timestamps strictly newer than `now` minus the window. -/
def pruneRequests (window : Int) (now : Int) (requests : List Int) : List Int :=
  requests.filter (fun req_time => now - req_time < window)

/-- Admission logic of one `RateLimiter.acquire` call while it holds the lock
(`api_client.py` lines 116-133).  The state is the pruned-and-assigned
`self.requests` list; the `Bool` says whether the call returns.  A `false`
outcome is the branch where the pruned list is already full: there the code
sleeps and then recursively re-enters `acquire` while still holding the
non-reentrant `asyncio.Lock`, so the call never returns (see the
`acquireMachineStep` model below); the timestamp list keeps the value the
assignment on line 122 gave it. -/
def acquireStep (max_requests : Nat) (window : Int) (requests : List Int) (now : Int) :
    List Int × Bool :=
  let pruned := pruneRequests window now requests
  if max_requests ≤ pruned.length then (pruned, false)
  else (pruned ++ [now], true)

/-- Serialised admission history of one `RateLimiter` instance: the lock in
`acquire` serialises concurrent callers, so the calls that reach the critical
section form a sequence of `acquireStep` applications.  Returns the final
timestamp list and the times of the calls that were admitted (returned). -/
def runAcquires (max_requests : Nat) (window : Int) (requests : List Int) :
    List Int → List Int × List Int
  | [] => (requests, [])
  | now :: rest =>
    let step := acquireStep max_requests window requests now
    let r := runAcquires max_requests window step.1 rest
    (r.1, if step.2 then now :: r.2 else r.2)

/-- Membership of a time in the sliding window of width `window` ending at
`x + window` (exclusive lower bound, matching the strict pruning test). -/
def inWindow (window x t : Int) : Bool :=
  decide (x < t) && decide (t ≤ x + window)

/-- Combined acquire returns of a bulk run as `_process_bulk_import` builds it
(`bulk.py` lines 390-422): every `process_domain` task constructs its own
`GoDaddyAPIClient` (`bulk.py` line 405), whose constructor creates a fresh
`RateLimiter()` with the defaults `max_requests = 60`, `window = 60`
(`api_client.py` line 142), so each task's acquires run against a private
instance and the admitted times are simply concatenated. -/
def perTaskAdmitted (taskTimes : List (List Int)) : List Int :=
  (taskTimes.map (fun times => (runAcquires 60 60 [] times).2)).flatten

/-- Control points of one `acquire` call (`api_client.py` lines 116-133). -/
inductive AcquirePhase where
  | waitLock
  | critical
  | sleepHold
  | returned
deriving DecidableEq

/-- Configuration of a task executing `acquire`: its control point, whether
this task itself holds `self._lock`, the `self.requests` list and the current
time. -/
structure AcquireConfig where
  phase : AcquirePhase
  holdsLock : Bool
  requests : List Int
  now : Int
deriving DecidableEq

/-- Small-step execution of one task inside `RateLimiter.acquire`
(`api_client.py` lines 116-133):
  * `waitLock` is the `async with self._lock` entry; `asyncio.Lock` is not
    reentrant, so a task that already holds the lock waits forever (the
    configuration no longer changes);
  * `critical` prunes (line 122) and tests the window (line 126); when the
    pruned list is full the computed `sleep_time` equals `window - (now -
    pruned[0])`, strictly positive after pruning, so the code always sleeps
    while still holding the lock; otherwise it appends `now` (line 133),
    releases the lock and returns;
  * `sleepHold` finishes the sleep and executes `return await self.acquire()`
    (line 130), re-entering `waitLock` with the lock still held. -/
def acquireMachineStep (max_requests : Nat) (window : Int) (c : AcquireConfig) :
    AcquireConfig :=
  match c.phase with
  | .waitLock =>
    if c.holdsLock then c
    else { c with phase := .critical, holdsLock := true }
  | .critical =>
    let pruned := pruneRequests window c.now c.requests
    if max_requests ≤ pruned.length then
      { c with phase := .sleepHold, requests := pruned }
    else
      { c with phase := .returned, requests := pruned ++ [c.now], holdsLock := false }
  | .sleepHold =>
    let sleep_time := window - (c.now - c.requests.headD 0)
    { c with phase := .waitLock, now := c.now + sleep_time }
  | .returned => c

/-- Transport that answers every batch with a 429 rate-limit response, the
way `_request` surfaces it (`api_client.py` lines 179-183). -/
def always429 : List DNSRecord → Except APIError Unit :=
  fun _ => Except.error { message := "Too many requests", status_code := 429 }

/-- Sample A record for concrete runs. -/
def recordA : DNSRecord := { name := "www", type := "A", data := "1.2.3.4" }

/-- Second sample A record for concrete runs. -/
def recordB : DNSRecord := { name := "api", type := "A", data := "2.2.2.2" }

/-- Current SRV record of the weight/port scenario. -/
def srvCurrent : DNSRecord :=
  { name := "_sip._tcp", type := "SRV", data := "sip.example.com", ttl := 3600,
    priority := some 10, port := some 8080, weight := some 5 }

/-- Desired SRV record of the weight/port scenario: only the port changed. -/
def srvDesired : DNSRecord :=
  { name := "_sip._tcp", type := "SRV", data := "sip.example.com", ttl := 3600,
    priority := some 10, port := some 9090, weight := some 5 }

/-- Desired state dict with `recordB` inserted before `recordA`. -/
def desiredBA : List (String × DNSRecord) :=
  [(recordKey recordB, recordB), (recordKey recordA, recordA)]

/-- The same desired state dict with the two insertions swapped. -/
def desiredAB : List (String × DNSRecord) :=
  [(recordKey recordA, recordA), (recordKey recordB, recordB)]

/-- Number of create entries of the generated plan whose identity key
(name dot type) equals `k`. -/
def createKeyCount (current_state desired_state : List (String × DNSRecord)) (k : String) :
    Nat :=
  (generate_deployment_plan current_state desired_state).create.countP
    (fun e => changeKey e.name e.type == k)

/-- Number of update entries of the generated plan whose identity key
equals `k`. -/
def updateKeyCount (current_state desired_state : List (String × DNSRecord)) (k : String) :
    Nat :=
  (generate_deployment_plan current_state desired_state).update.countP
    (fun e => changeKey e.name e.type == k)

/-- Number of delete entries of the generated plan whose identity key
equals `k`. -/
def deleteKeyCount (current_state desired_state : List (String × DNSRecord)) (k : String) :
    Nat :=
  (generate_deployment_plan current_state desired_state).delete.countP
    (fun e => changeKey e.name e.type == k)

/-! ## Helper lemmas -/

/-- The chunk lengths of `chunkListGo` sum to the input length whenever the
fuel dominates the input length. -/
theorem chunkListGo_length_sum (batch_size : Nat) :
    ∀ (fuel : Nat) (l : List α), l.length ≤ fuel →
      ((chunkListGo batch_size fuel l).map List.length).sum = l.length := by
  intro fuel
  induction fuel with
  | zero =>
    intro l hl
    cases l with
    | nil => rfl
    | cons x xs => simp at hl
  | succ fuel ih =>
    intro l hl
    cases l with
    | nil => rfl
    | cons x xs =>
      have hx : (xs.drop (batch_size - 1)).length ≤ fuel := by
        simp only [List.length_drop]
        simp only [List.length_cons] at hl
        omega
      simp only [chunkListGo, List.map_cons, List.sum_cons, ih _ hx,
        List.length_cons, List.length_take, List.length_drop]
      omega

/-- The chunk lengths of `chunkList` sum to the input length. -/
theorem chunkList_length_sum (batch_size : Nat) (l : List α) :
    ((chunkList batch_size l).map List.length).sum = l.length :=
  chunkListGo_length_sum batch_size l.length l (Nat.le_refl _)

/-- Every batch contributes its full length to exactly one of the two
counters of `bulk_update_batches`. -/
theorem bulk_update_batches_sum (send : List DNSRecord → Except APIError Unit) :
    ∀ (idx : Nat) (chunks : List (List DNSRecord)),
      (bulk_update_batches send idx chunks).success +
        (bulk_update_batches send idx chunks).failed = (chunks.map List.length).sum := by
  intro idx chunks
  induction chunks generalizing idx with
  | nil => rfl
  | cons batch rest ih =>
    cases h : send batch with
    | ok u => simp only [bulk_update_batches, h, List.map_cons, List.sum_cons]
              have := ih (idx + 1)
              omega
    | error e => simp only [bulk_update_batches, h, List.map_cons, List.sum_cons]
                 have := ih (idx + 1)
                 omega

/-- When the transport fails every batch, `bulk_update_batches` counts every
record as failed and none as succeeded. -/
theorem bulk_update_batches_all_fail (send : List DNSRecord → Except APIError Unit)
    (err : APIError) (hsend : ∀ b, send b = Except.error err) :
    ∀ (idx : Nat) (chunks : List (List DNSRecord)),
      (bulk_update_batches send idx chunks).failed = (chunks.map List.length).sum ∧
        (bulk_update_batches send idx chunks).success = 0 := by
  intro idx chunks
  induction chunks generalizing idx with
  | nil => exact ⟨rfl, rfl⟩
  | cons batch rest ih =>
    have h := hsend batch
    have hr := ih (idx + 1)
    simp only [bulk_update_batches, h, List.map_cons, List.sum_cons]
    omega

/-- Every record contributes to exactly one counter of `bulk_add_records`. -/
theorem bulk_add_records_sum (send : DNSRecord → Except String Unit) :
    ∀ records : List DNSRecord,
      (bulk_add_records send records).success + (bulk_add_records send records).failed =
        records.length := by
  intro records
  induction records with
  | nil => rfl
  | cons record rest ih =>
    cases h : send record with
    | ok u => simp only [bulk_add_records, h, List.length_cons]; omega
    | error e => simp only [bulk_add_records, h, List.length_cons]; omega

/-! ## Claim theorems -/

/-- C9.  For every bulk execution the returned result satisfies
`succeeded + failed = total items scheduled`: in
`GoDaddyAPIClient.bulk_update_records` each batch adds its full length to
exactly one of the two counters regardless of where batch boundaries fall and
which batches fail, and in `APIClient.bulk_add_records` each record is counted
exactly once as success or failure.  (`0 < batch_size` because the Python
slicing loop raises `ValueError` on step 0.) -/
theorem bulk_counts_partition (send : List DNSRecord → Except APIError Unit)
    (send1 : DNSRecord → Except String Unit) (records records1 : List DNSRecord)
    (batch_size : Nat) (hbs : 0 < batch_size) :
    (bulk_update_records send records batch_size).success +
        (bulk_update_records send records batch_size).failed = records.length ∧
      (bulk_add_records send1 records1).success +
        (bulk_add_records send1 records1).failed = records1.length := by
  constructor
  · calc (bulk_update_records send records batch_size).success +
        (bulk_update_records send records batch_size).failed
        = ((chunkList batch_size records).map List.length).sum :=
          bulk_update_batches_sum send 1 (chunkList batch_size records)
      _ = records.length := chunkList_length_sum batch_size records
  · exact bulk_add_records_sum send1 records1

/-- Witness for C9 at a concrete transport, record list and batch size. -/
theorem bulk_counts_partition_witness :
    0 < 2 ∧
      ((bulk_update_records always429 [recordA, recordB, srvCurrent] 2).success +
          (bulk_update_records always429 [recordA, recordB, srvCurrent] 2).failed = 3 ∧
        (bulk_add_records (fun _ => Except.ok ()) [recordA]).success +
          (bulk_add_records (fun _ => Except.ok ()) [recordA]).failed = 1) :=
  ⟨by decide,
    bulk_counts_partition always429 (fun _ => Except.ok ()) [recordA, recordB, srvCurrent]
      [recordA] 2 (by decide)⟩

/-- C10 (implicit).  The single-record mutation operations swallow API
errors: each of `create_dns_record`, `update_dns_record` and
`delete_dns_record` returns `True` exactly when `_request` returns (any
status below 400, in particular 2xx) and returns `False` on any `APIError`
(any status of at least 400 and any message alike), discarding the error
entirely. -/
theorem mutation_ops_swallow_api_errors (status errStatus : Int) (msg : String)
    (rd : List (String × String)) (e : APIError) (h2xx : status < 400)
    (herr : 400 ≤ errStatus) :
    create_dns_record (request_outcome status msg rd) = true ∧
      update_dns_record (request_outcome status msg rd) = true ∧
      delete_dns_record (request_outcome status msg rd) = true ∧
      create_dns_record (request_outcome errStatus msg rd) = false ∧
      update_dns_record (request_outcome errStatus msg rd) = false ∧
      delete_dns_record (request_outcome errStatus msg rd) = false ∧
      create_dns_record (Except.error e) = false ∧
      update_dns_record (Except.error e) = false ∧
      delete_dns_record (Except.error e) = false := by
  have hok : request_outcome status msg rd = Except.ok rd := by
    simp only [request_outcome, if_neg (by omega : ¬(400 ≤ status))]
  have hko : request_outcome errStatus msg rd =
      Except.error { message := msg, status_code := errStatus, response_data := rd } := by
    simp only [request_outcome, if_pos herr]
  refine ⟨?_, ?_, ?_, ?_, ?_, ?_, rfl, rfl, rfl⟩ <;>
    simp only [hok, hko, create_dns_record, update_dns_record, delete_dns_record]

/-- Witness for C10 at the statuses 200 and 429. -/
theorem mutation_ops_swallow_api_errors_witness :
    (200 : Int) < 400 ∧ (400 : Int) ≤ 429 ∧
      create_dns_record (request_outcome 200 "ok" []) = true ∧
      delete_dns_record (request_outcome 429 "Too many requests" []) = false :=
  ⟨by decide, by decide,
    (mutation_ops_swallow_api_errors 200 429 "ok" []
        { message := "x", status_code := 500 } (by decide) (by decide)).1,
    (mutation_ops_swallow_api_errors 200 429 "Too many requests" []
        { message := "x", status_code := 500 } (by decide) (by decide)).2.2.2.2.2.1⟩

/-- C4 counterexample.  A concrete request that receives a 429 rate-limit
response: `_request` surfaces it to the caller as an `APIError` and
`bulk_update_records` counts the record toward the failed total with a batch
error message — the 429 is not retried and is visible as a per-item failure,
contradicting the claim. -/
theorem rate_limited_counts_as_failure :
    request_outcome 429 "Too many requests" [] =
        Except.error { message := "Too many requests", status_code := 429, response_data := [] } ∧
      (bulk_update_records always429 [recordA] 10).failed = 1 ∧
      (bulk_update_records always429 [recordA] 10).success = 0 ∧
      (bulk_update_records always429 [recordA] 10).errors =
        ["Batch 1: API Error (429): Too many requests"] := by
  refine ⟨?_, by decide, by decide, by decide⟩
  simp only [request_outcome, if_pos (by decide : (400 : Int) ≤ 429)]

/-- C4 as amended.  A 429 response is never retried: `_request` raises an
`APIError` with status 429 to its caller like any other status of at least
400, every 429-failed batch in `bulk_update_records` counts all its records
toward the failed total, and `handle_api_error` maps a 429 to a
`RateLimitError` carrying the parsed Retry-After header — but no caller
retries on it. -/
theorem rate_limited_not_retried (msg : String) (rd : List (String × String))
    (records : List DNSRecord) (batch_size : Nat) (hbs : 0 < batch_size)
    (send : List DNSRecord → Except APIError Unit)
    (hsend : ∀ b, send b = Except.error
      { message := msg, status_code := 429, response_data := rd })
    (hdr : Option String) :
    (bulk_update_records send records batch_size).failed = records.length ∧
      (bulk_update_records send records batch_size).success = 0 ∧
      request_outcome 429 msg rd =
        Except.error { message := msg, status_code := 429, response_data := rd } ∧
      handle_api_error 429 hdr = some (ApiErrorKind.rateLimit (parse_retry_after hdr)) := by
  have hall := bulk_update_batches_all_fail send
    { message := msg, status_code := 429, response_data := rd } hsend 1
    (chunkList batch_size records)
  refine ⟨?_, hall.2, ?_, ?_⟩
  · calc (bulk_update_records send records batch_size).failed
        = ((chunkList batch_size records).map List.length).sum := hall.1
      _ = records.length := chunkList_length_sum batch_size records
  · simp only [request_outcome, if_pos (by decide : (400 : Int) ≤ 429)]
  · rfl

/-- Witness for the amended C4 at a concrete transport and record list. -/
theorem rate_limited_not_retried_witness :
    0 < 10 ∧ (∀ b, always429 b = Except.error
        { message := "Too many requests", status_code := 429, response_data := [] }) ∧
      ((bulk_update_records always429 [recordA, recordB] 10).failed = 2 ∧
        (bulk_update_records always429 [recordA, recordB] 10).success = 0 ∧
        request_outcome 429 "Too many requests" [] = Except.error
          { message := "Too many requests", status_code := 429, response_data := [] } ∧
        handle_api_error 429 (some "7") =
          some (ApiErrorKind.rateLimit (parse_retry_after (some "7")))) :=
  ⟨by decide, fun b => rfl,
    rate_limited_not_retried "Too many requests" [] [recordA, recordB] 10 (by decide)
      always429 (fun b => rfl) (some "7")⟩

/-- C8 (code bug).  At a concrete SRV record whose desired state changes only
the port, the plan emits an update (since `_records_differ` compares `weight`
and `port`), but the update entry serialises only `data`, `ttl` and
`priority`; re-parsing it in `apply_deployment` therefore applies a record
whose `port` and `weight` are `None` instead of the desired 9090 and 5 — the
update does not carry the full desired record. -/
theorem srv_update_drops_weight_port :
    records_differ srvCurrent srvDesired = true ∧
      (generate_deployment_plan [(recordKey srvCurrent, srvCurrent)]
          [(recordKey srvDesired, srvDesired)]).update.length = 1 ∧
      apply_update_records (generate_deployment_plan [(recordKey srvCurrent, srvCurrent)]
          [(recordKey srvDesired, srvDesired)]) =
        [record_from_plan_dict (serializeRecord srvDesired)] ∧
      (record_from_plan_dict (serializeRecord srvDesired)).port = none ∧
      (record_from_plan_dict (serializeRecord srvDesired)).weight = none ∧
      srvDesired.port = some 9090 ∧
      srvDesired.weight = some 5 := by
  refine ⟨by decide, by decide, by decide, rfl, rfl, rfl, rfl⟩

/-- Positions of delete operations precede positions of non-delete operations
in a trace built as deletes followed by batches. -/
theorem append_delete_positions (D P : List ApplyOp)
    (hD : ∀ a ∈ D, a.isDelete = true) (hP : ∀ a ∈ P, a.isDelete = false)
    (i j : Nat) (hi : i < (D ++ P).length) (hj : j < (D ++ P).length)
    (hdel : ((D ++ P).get ⟨i, hi⟩).isDelete = true)
    (hcu : ((D ++ P).get ⟨j, hj⟩).isDelete = false) : i < j := by
  have hiD : i < D.length := by
    by_contra hle
    push_neg at hle
    have hPi : i - D.length < P.length := by
      have := hi
      rw [List.length_append] at this
      omega
    have hEq : (D ++ P).get ⟨i, hi⟩ = P.get ⟨i - D.length, hPi⟩ := by
      simp [List.get_eq_getElem, List.getElem_append_right hle]
    rw [hEq, hP _ (P.get_mem _ _)] at hdel
    exact Bool.false_ne_true hdel
  have hjD : D.length ≤ j := by
    by_contra hlt
    push_neg at hlt
    have hEq : (D ++ P).get ⟨j, hj⟩ = D.get ⟨j, hlt⟩ := by
      simp [List.get_eq_getElem, List.getElem_append_left hlt]
    rw [hEq, hD _ (D.get_mem _ _)] at hcu
    exact Bool.false_ne_true hcu.symm
  omega

/-- C5.  When a plan is applied, every individual delete call appears in the
wire-call order strictly before every create/update batch: the trace of
`apply_deployment` is the sequential delete loop followed by the batched
PATCH calls, so any delete index is smaller than any non-delete index. -/
theorem deletes_before_creates_updates (plan : DeploymentPlan) (batch_size : Nat)
    (i j : Nat) (hi : i < (apply_deployment_trace plan batch_size).length)
    (hj : j < (apply_deployment_trace plan batch_size).length)
    (hdel : ((apply_deployment_trace plan batch_size).get ⟨i, hi⟩).isDelete = true)
    (hcu : ((apply_deployment_trace plan batch_size).get ⟨j, hj⟩).isDelete = false) :
    i < j := by
  have hDall : ∀ a ∈ plan.delete.map
      (fun change => ApplyOp.deleteRecord change.type change.name), a.isDelete = true := by
    intro a ha
    rcases List.mem_map.1 ha with ⟨c, hc, rfl⟩
    rfl
  have hPall : ∀ a ∈ (chunkList batch_size (apply_update_records plan)).map
      ApplyOp.patchBatch, a.isDelete = false := by
    intro a ha
    rcases List.mem_map.1 ha with ⟨c, hc, rfl⟩
    rfl
  exact append_delete_positions _ _ hDall hPall i j hi hj hdel hcu

/-- Witness for C5 on the plan generated from a concrete pair of states with
one delete and one create, at batch size 10. -/
theorem deletes_before_creates_updates_witness :
    ((apply_deployment_trace (generate_deployment_plan [(recordKey recordB, recordB)]
          [(recordKey recordA, recordA)]) 10).get ⟨0, by decide⟩).isDelete = true ∧
      ((apply_deployment_trace (generate_deployment_plan [(recordKey recordB, recordB)]
          [(recordKey recordA, recordA)]) 10).get ⟨1, by decide⟩).isDelete = false ∧
      (0 : Nat) < 1 :=
  ⟨by decide, by decide,
    deletes_before_creates_updates
      (generate_deployment_plan [(recordKey recordB, recordB)] [(recordKey recordA, recordA)])
      10 0 1 (by decide) (by decide) (by decide) (by decide)⟩

/-- A dict lookup succeeds exactly when the key occurs in the dict. -/
theorem dictGet_isSome_iff (m : List (String × DNSRecord)) (k : String) :
    (dictGet m k).isSome = true ↔ k ∈ m.map Prod.fst := by
  simp only [dictGet, Option.isSome_map', List.find?_isSome, List.mem_map]
  constructor
  · rintro ⟨p, hp, hk⟩
    exact ⟨p, hp, by simpa using hk⟩
  · rintro ⟨p, hp, hk⟩
    exact ⟨p, hp, by simpa using hk⟩

/-- A dict lookup misses exactly when the key does not occur in the dict. -/
theorem dictGet_eq_none_iff (m : List (String × DNSRecord)) (k : String) :
    dictGet m k = none ↔ k ∉ m.map Prod.fst := by
  constructor
  · intro h hmem
    have hs := (dictGet_isSome_iff m k).2 hmem
    rw [h] at hs
    simp at hs
  · intro h
    cases ho : dictGet m k with
    | none => rfl
    | some c => exact absurd ((dictGet_isSome_iff m k).1 (by rw [ho]; rfl)) h

/-- A successful dict lookup returns an entry of the dict. -/
theorem dictGet_eq_some_mem {m : List (String × DNSRecord)} {k : String} {c : DNSRecord}
    (h : dictGet m k = some c) : (k, c) ∈ m := by
  simp only [dictGet, Option.map_eq_some'] at h
  rcases h with ⟨p, hfind, hsnd⟩
  have hmem := List.mem_of_find?_eq_some hfind
  have hkey := List.find?_some hfind
  rcases p with ⟨k1, c1⟩
  simp only [beq_iff_eq] at hkey
  subst hkey
  cases hsnd
  exact hmem

/-- With no duplicate keys, each dict entry is returned by the lookup at its
key. -/
theorem mem_dictGet {m : List (String × DNSRecord)} {k : String} {c : DNSRecord}
    (hn : (m.map Prod.fst).Nodup) (h : (k, c) ∈ m) : dictGet m k = some c := by
  induction m with
  | nil => simp at h
  | cons p rest ih =>
    rcases p with ⟨k0, c0⟩
    simp only [List.map_cons, List.nodup_cons] at hn
    rcases List.mem_cons.1 h with heq | hrest
    · cases heq
      simp [dictGet, List.find?_cons_of_pos]
    · have hk : k0 ≠ k := by
        intro hk0
        exact hn.1 (hk0 ▸ List.mem_map.2 ⟨(k, c), hrest, rfl⟩)
      have : dictGet rest k = some c := ih hn.2 hrest
      simpa [dictGet, List.find?_cons_of_neg, hk] using this

/-- No create entries are generated when every desired key resolves in the
current state. -/
theorem plan_create_changes_nil (current_state : List (String × DNSRecord)) :
    ∀ desired_state : List (String × DNSRecord),
      (∀ p ∈ desired_state, (dictGet current_state p.1).isSome = true) →
      plan_create_changes current_state desired_state = [] := by
  intro desired_state h
  induction desired_state with
  | nil => rfl
  | cons p rest ih =>
    rcases p with ⟨key, d⟩
    have hk := h (key, d) (List.mem_cons_self _ _)
    cases hc : dictGet current_state key with
    | none => rw [hc] at hk; simp at hk
    | some c =>
      simp only [plan_create_changes, hc]
      exact ih (fun q hq => h q (List.mem_cons_of_mem _ hq))

/-- No update entries are generated when every desired record matches the
current record at its key on the compared fields. -/
theorem plan_update_changes_nil (current_state : List (String × DNSRecord)) :
    ∀ desired_state : List (String × DNSRecord),
      (∀ p ∈ desired_state, ∀ c, dictGet current_state p.1 = some c →
        records_differ c p.2 = false) →
      plan_update_changes current_state desired_state = [] := by
  intro desired_state h
  induction desired_state with
  | nil => rfl
  | cons p rest ih =>
    rcases p with ⟨key, d⟩
    have hrest : plan_update_changes current_state rest = [] :=
      ih (fun q hq => h q (List.mem_cons_of_mem _ hq))
    cases hc : dictGet current_state key with
    | none => simp only [plan_update_changes, hc]; exact hrest
    | some c =>
      have hd := h (key, d) (List.mem_cons_self _ _) c hc
      simp only [plan_update_changes, hc, hd, Bool.false_eq_true, if_neg, ite_false]
      exact hrest

/-- No delete entries are generated when every current key resolves in the
desired state. -/
theorem plan_delete_changes_nil (desired_state : List (String × DNSRecord)) :
    ∀ current_state : List (String × DNSRecord),
      (∀ p ∈ current_state, (dictGet desired_state p.1).isSome = true) →
      plan_delete_changes desired_state current_state = [] := by
  intro current_state h
  induction current_state with
  | nil => rfl
  | cons p rest ih =>
    rcases p with ⟨key, c⟩
    have hk := h (key, c) (List.mem_cons_self _ _)
    cases hc : dictGet desired_state key with
    | none => rw [hc] at hk; simp at hk
    | some d =>
      simp only [plan_delete_changes, hc]
      exact ih (fun q hq => h q (List.mem_cons_of_mem _ hq))

/-- C6.  Plan generation is idempotent: when the current state carries exactly
the desired keys and the records agree key-for-key on the compared fields
(`_records_differ` is false), the generated plan is empty — zero creates,
zero updates, zero deletes. -/
theorem plan_idempotent_on_converged_state
    (current_state desired_state : List (String × DNSRecord))
    (hkeys : ∀ k : String, k ∈ current_state.map Prod.fst ↔ k ∈ desired_state.map Prod.fst)
    (hagree : ∀ k c d, (k, c) ∈ current_state → (k, d) ∈ desired_state →
      records_differ c d = false) :
    generate_deployment_plan current_state desired_state =
      { create := [], update := [], delete := [] } := by
  have hc : plan_create_changes current_state desired_state = [] := by
    apply plan_create_changes_nil
    intro p hp
    rw [dictGet_isSome_iff, hkeys]
    exact List.mem_map.2 ⟨p, hp, rfl⟩
  have hu : plan_update_changes current_state desired_state = [] := by
    apply plan_update_changes_nil
    intro p hp c hcSome
    exact hagree p.1 c p.2 (dictGet_eq_some_mem hcSome) (by cases p; exact hp)
  have hd : plan_delete_changes desired_state current_state = [] := by
    apply plan_delete_changes_nil
    intro p hp
    rw [dictGet_isSome_iff, ← hkeys]
    exact List.mem_map.2 ⟨p, hp, rfl⟩
  simp only [generate_deployment_plan, hc, hu, hd]

/-- Witness for C6 on a concrete converged pair of states. -/
theorem plan_idempotent_on_converged_state_witness :
    (∀ k : String, k ∈ ([(recordKey recordA, recordA)].map Prod.fst) ↔
        k ∈ ([(recordKey recordA, recordA)].map Prod.fst)) ∧
      generate_deployment_plan [(recordKey recordA, recordA)] [(recordKey recordA, recordA)] =
        { create := [], update := [], delete := [] } :=
  ⟨fun k => Iff.rfl,
    plan_idempotent_on_converged_state _ _ (fun k => Iff.rfl) (by
      intro k c d hc hd
      rcases List.mem_cons.1 hc with h1 | h1
      · rcases List.mem_cons.1 hd with h2 | h2
        · injection h1 with hk1 hc1
          injection h2 with hk2 hd1
          subst hc1
          subst hd1
          decide
        · simp at h2
      · simp at h1)⟩

/-- Key-filtered count of create entries, expressed over the desired dict. -/
theorem count_plan_create (cur : List (String × DNSRecord)) (k : String) :
    ∀ des : List (String × DNSRecord),
      (plan_create_changes cur des).countP (fun e => changeKey e.name e.type == k) =
        des.countP (fun p => (dictGet cur p.1).isNone && (recordKey p.2 == k)) := by
  intro des
  induction des with
  | nil => rfl
  | cons p rest ih =>
    rcases p with ⟨key, d⟩
    cases hc : dictGet cur key with
    | some c =>
      simp only [plan_create_changes, hc, List.countP_cons, Option.isNone_some,
        Bool.false_and, ih]
      simp
    | none =>
      simp only [plan_create_changes, hc, List.countP_cons, Option.isNone_none,
        Bool.true_and, ih, recordKey]

/-- Key-filtered count of update entries, expressed over the desired dict. -/
theorem count_plan_update (cur : List (String × DNSRecord)) (k : String) :
    ∀ des : List (String × DNSRecord),
      (plan_update_changes cur des).countP (fun e => changeKey e.name e.type == k) =
        des.countP (fun p =>
          (match dictGet cur p.1 with
            | some c => records_differ c p.2
            | none => false) && (recordKey p.2 == k)) := by
  intro des
  induction des with
  | nil => rfl
  | cons p rest ih =>
    rcases p with ⟨key, d⟩
    cases hc : dictGet cur key with
    | some c =>
      by_cases hd : records_differ c d = true
      · simp only [plan_update_changes, hc, hd, if_pos, List.countP_cons,
          Bool.true_and, ih, recordKey]
      · simp only [plan_update_changes, hc, if_neg hd, List.countP_cons, ih]
        have hd' : records_differ c d = false := by
          cases hdd : records_differ c d
          · rfl
          · exact absurd hdd hd
        simp [hd']
    | none =>
      simp only [plan_update_changes, hc, List.countP_cons, Bool.false_and, ih]
      simp

/-- Key-filtered count of delete entries, expressed over the current dict. -/
theorem count_plan_delete (des : List (String × DNSRecord)) (k : String) :
    ∀ cur : List (String × DNSRecord),
      (plan_delete_changes des cur).countP (fun e => changeKey e.name e.type == k) =
        cur.countP (fun p => (dictGet des p.1).isNone && (recordKey p.2 == k)) := by
  intro cur
  induction cur with
  | nil => rfl
  | cons p rest ih =>
    rcases p with ⟨key, c⟩
    cases hc : dictGet des key with
    | some d =>
      simp only [plan_delete_changes, hc, List.countP_cons, Option.isNone_some,
        Bool.false_and, ih]
      simp
    | none =>
      simp only [plan_delete_changes, hc, List.countP_cons, Option.isNone_none,
        Bool.true_and, ih, recordKey]

/-- A keyed count over a dict vanishes when the key is absent. -/
theorem countP_keyed_zero (q : String × DNSRecord → Bool) (k : String)
    {l : List (String × DNSRecord)} (h : k ∉ l.map Prod.fst) :
    l.countP (fun p => q p && (p.1 == k)) = 0 := by
  apply List.countP_eq_zero.2
  intro p hp
  have hne : p.1 ≠ k := fun hk => h (hk ▸ List.mem_map.2 ⟨p, hp, rfl⟩)
  simp [hne]

/-- With no duplicate keys, a keyed count over a dict reduces to the test at
the unique entry with that key. -/
theorem countP_keyed_one (q : String × DNSRecord → Bool) (k : String) (c : DNSRecord) :
    ∀ l : List (String × DNSRecord), (l.map Prod.fst).Nodup → (k, c) ∈ l →
      l.countP (fun p => q p && (p.1 == k)) = if q (k, c) then 1 else 0 := by
  intro l
  induction l with
  | nil => intro _ h; simp at h
  | cons p rest ih =>
    intro hn hmem
    rcases p with ⟨k0, c0⟩
    simp only [List.map_cons, List.nodup_cons] at hn
    rcases List.mem_cons.1 hmem with heq | hrest
    · injection heq with hk hc
      subst hk
      subst hc
      rw [List.countP_cons]
      have hz : rest.countP (fun p => q p && (p.1 == k)) = 0 :=
        countP_keyed_zero q k hn.1
      simp [hz]
    · have hk0 : k0 ≠ k := by
        intro h0
        exact hn.1 (h0 ▸ List.mem_map.2 ⟨(k, c), hrest, rfl⟩)
      rw [List.countP_cons, ih hn.2 hrest]
      simp [hk0]

/-- Every update entry comes from a desired entry whose key resolves to a
differing current record, and carries the two serialised records. -/
theorem mem_plan_update_changes (cur : List (String × DNSRecord)) :
    ∀ des : List (String × DNSRecord), ∀ e ∈ plan_update_changes cur des,
      ∃ key c d, (key, d) ∈ des ∧ dictGet cur key = some c ∧
        records_differ c d = true ∧
        e = { name := d.name, type := d.type, old_record := serializeRecord c,
              new_record := serializeRecord d } := by
  intro des
  induction des with
  | nil => intro e he; simp [plan_update_changes] at he
  | cons p rest ih =>
    intro e he
    rcases p with ⟨key, d⟩
    cases hc : dictGet cur key with
    | some c =>
      by_cases hd : records_differ c d = true
      · simp only [plan_update_changes, hc, hd, if_pos] at he
        rcases List.mem_cons.1 he with heq | hrest
        · exact ⟨key, c, d, List.mem_cons_self _ _, hc, hd, heq⟩
        · rcases ih e hrest with ⟨key', c', d', hm, hg, hdiff, he⟩
          exact ⟨key', c', d', List.mem_cons_of_mem _ hm, hg, hdiff, he⟩
      · simp only [plan_update_changes, hc, if_neg hd] at he
        rcases ih e he with ⟨key', c', d', hm, hg, hdiff, he⟩
        exact ⟨key', c', d', List.mem_cons_of_mem _ hm, hg, hdiff, he⟩
    | none =>
      simp only [plan_update_changes, hc] at he
      rcases ih e he with ⟨key', c', d', hm, hg, hdiff, he⟩
      exact ⟨key', c', d', List.mem_cons_of_mem _ hm, hg, hdiff, he⟩

/-- C1.  The generated plan partitions the identity keys of the two maps:
a key in desired-but-not-current yields exactly one create entry; a key in
both whose records differ on `data`, `ttl`, `priority`, `weight` or `port`
yields exactly one update entry carrying the serialised old and new records;
a key in current-but-not-desired yields exactly one delete entry; a key in
both with no differing compared field appears in no list; and no key appears
in more than one of the three lists. -/
theorem plan_partition_by_key
    (current_state desired_state : List (String × DNSRecord))
    (hcn : (current_state.map Prod.fst).Nodup)
    (hdn : (desired_state.map Prod.fst).Nodup)
    (hck : ∀ p ∈ current_state, p.1 = recordKey p.2)
    (hdk : ∀ p ∈ desired_state, p.1 = recordKey p.2)
    (k : String) :
    (k ∈ desired_state.map Prod.fst → k ∉ current_state.map Prod.fst →
      createKeyCount current_state desired_state k = 1 ∧
      updateKeyCount current_state desired_state k = 0 ∧
      deleteKeyCount current_state desired_state k = 0) ∧
    (∀ c d, (k, c) ∈ current_state → (k, d) ∈ desired_state →
      records_differ c d = true →
      updateKeyCount current_state desired_state k = 1 ∧
      createKeyCount current_state desired_state k = 0 ∧
      deleteKeyCount current_state desired_state k = 0 ∧
      ∀ e ∈ (generate_deployment_plan current_state desired_state).update,
        changeKey e.name e.type = k →
        e.old_record = serializeRecord c ∧ e.new_record = serializeRecord d) ∧
    (k ∈ current_state.map Prod.fst → k ∉ desired_state.map Prod.fst →
      deleteKeyCount current_state desired_state k = 1 ∧
      createKeyCount current_state desired_state k = 0 ∧
      updateKeyCount current_state desired_state k = 0) ∧
    (∀ c d, (k, c) ∈ current_state → (k, d) ∈ desired_state →
      records_differ c d = false →
      createKeyCount current_state desired_state k = 0 ∧
      updateKeyCount current_state desired_state k = 0 ∧
      deleteKeyCount current_state desired_state k = 0) ∧
    ((0 < createKeyCount current_state desired_state k →
      updateKeyCount current_state desired_state k = 0 ∧
      deleteKeyCount current_state desired_state k = 0) ∧
     (0 < updateKeyCount current_state desired_state k →
      deleteKeyCount current_state desired_state k = 0)) := by
  have hC : createKeyCount current_state desired_state k =
      desired_state.countP (fun p => (dictGet current_state p.1).isNone && (p.1 == k)) := by
    simp only [createKeyCount, generate_deployment_plan]
    rw [count_plan_create]
    exact List.countP_congr (fun p hp => by rw [hdk p hp])
  have hU : updateKeyCount current_state desired_state k =
      desired_state.countP (fun p =>
        (match dictGet current_state p.1 with
          | some c => records_differ c p.2
          | none => false) && (p.1 == k)) := by
    simp only [updateKeyCount, generate_deployment_plan]
    rw [count_plan_update]
    exact List.countP_congr (fun p hp => by rw [hdk p hp])
  have hD : deleteKeyCount current_state desired_state k =
      current_state.countP (fun p => (dictGet desired_state p.1).isNone && (p.1 == k)) := by
    simp only [deleteKeyCount, generate_deployment_plan]
    rw [count_plan_delete]
    exact List.countP_congr (fun p hp => by rw [hck p hp])
  have case1 : k ∈ desired_state.map Prod.fst → k ∉ current_state.map Prod.fst →
      createKeyCount current_state desired_state k = 1 ∧
      updateKeyCount current_state desired_state k = 0 ∧
      deleteKeyCount current_state desired_state k = 0 := by
    intro hkd hkc
    obtain ⟨p, hp, hpk⟩ := List.mem_map.1 hkd
    rcases p with ⟨k1, d⟩
    dsimp at hpk
    subst hpk
    have hnone : dictGet current_state k1 = none := (dictGet_eq_none_iff _ _).2 hkc
    refine ⟨?_, ?_, ?_⟩
    · rw [hC, countP_keyed_one _ k1 d desired_state hdn hp]
      simp [hnone]
    · rw [hU, countP_keyed_one _ k1 d desired_state hdn hp]
      simp [hnone]
    · rw [hD, countP_keyed_zero _ k1 hkc]
  have case2 : ∀ c d, (k, c) ∈ current_state → (k, d) ∈ desired_state →
      records_differ c d = true →
      updateKeyCount current_state desired_state k = 1 ∧
      createKeyCount current_state desired_state k = 0 ∧
      deleteKeyCount current_state desired_state k = 0 ∧
      ∀ e ∈ (generate_deployment_plan current_state desired_state).update,
        changeKey e.name e.type = k →
        e.old_record = serializeRecord c ∧ e.new_record = serializeRecord d := by
    intro c d hc hd hdiff
    have hgc : dictGet current_state k = some c := mem_dictGet hcn hc
    have hgd : dictGet desired_state k = some d := mem_dictGet hdn hd
    refine ⟨?_, ?_, ?_, ?_⟩
    · rw [hU, countP_keyed_one _ k d desired_state hdn hd]
      simp [hgc, hdiff]
    · rw [hC, countP_keyed_one _ k d desired_state hdn hd]
      simp [hgc]
    · rw [hD, countP_keyed_one _ k c current_state hcn hc]
      simp [hgd]
    · intro e he hek
      obtain ⟨key1, c1, d1, hm, hg, hdiff1, rfl⟩ :=
        mem_plan_update_changes current_state desired_state e he
      have hkey : key1 = k := by
        have hx := hdk (key1, d1) hm
        dsimp at hx hek
        rw [hx]
        exact hek
      subst hkey
      have hsome := mem_dictGet hdn hm
      rw [hgd] at hsome
      have hdd : d1 = d := (Option.some_inj.1 hsome).symm
      rw [hgc] at hg
      have hcc : c1 = c := (Option.some_inj.1 hg).symm
      subst hdd
      subst hcc
      exact ⟨rfl, rfl⟩
  have case3 : k ∈ current_state.map Prod.fst → k ∉ desired_state.map Prod.fst →
      deleteKeyCount current_state desired_state k = 1 ∧
      createKeyCount current_state desired_state k = 0 ∧
      updateKeyCount current_state desired_state k = 0 := by
    intro hkc hkd
    obtain ⟨p, hp, hpk⟩ := List.mem_map.1 hkc
    rcases p with ⟨k1, c⟩
    dsimp at hpk
    subst hpk
    have hnone : dictGet desired_state k1 = none := (dictGet_eq_none_iff _ _).2 hkd
    refine ⟨?_, ?_, ?_⟩
    · rw [hD, countP_keyed_one _ k1 c current_state hcn hp]
      simp [hnone]
    · rw [hC, countP_keyed_zero _ k1 hkd]
    · rw [hU, countP_keyed_zero _ k1 hkd]
  have case4 : ∀ c d, (k, c) ∈ current_state → (k, d) ∈ desired_state →
      records_differ c d = false →
      createKeyCount current_state desired_state k = 0 ∧
      updateKeyCount current_state desired_state k = 0 ∧
      deleteKeyCount current_state desired_state k = 0 := by
    intro c d hc hd hdiff
    have hgc : dictGet current_state k = some c := mem_dictGet hcn hc
    have hgd : dictGet desired_state k = some d := mem_dictGet hdn hd
    refine ⟨?_, ?_, ?_⟩
    · rw [hC, countP_keyed_one _ k d desired_state hdn hd]
      simp [hgc]
    · rw [hU, countP_keyed_one _ k d desired_state hdn hd]
      simp [hgc, hdiff]
    · rw [hD, countP_keyed_one _ k c current_state hcn hc]
      simp [hgd]
  refine ⟨case1, case2, case3, case4, ?_, ?_⟩
  · intro hpos
    by_cases hkd : k ∈ desired_state.map Prod.fst
    · by_cases hkc : k ∈ current_state.map Prod.fst
      · obtain ⟨pc, hpc, hpck⟩ := List.mem_map.1 hkc
        rcases pc with ⟨k1, c⟩
        dsimp at hpck
        subst hpck
        obtain ⟨pd, hpd, hpdk⟩ := List.mem_map.1 hkd
        rcases pd with ⟨k2, d⟩
        dsimp at hpdk
        subst hpdk
        by_cases hdiff : records_differ c d = true
        · have h2 := case2 c d hpc hpd hdiff
          exact absurd hpos (by rw [h2.2.1]; exact lt_irrefl 0)
        · have hdiff0 : records_differ c d = false := by
            cases hdd : records_differ c d
            · rfl
            · exact absurd hdd hdiff
          have h4 := case4 c d hpc hpd hdiff0
          exact absurd hpos (by rw [h4.1]; exact lt_irrefl 0)
      · have h1 := case1 hkd hkc
        exact ⟨h1.2.1, h1.2.2⟩
    · have hz : createKeyCount current_state desired_state k = 0 := by
        rw [hC]
        exact countP_keyed_zero _ k hkd
      exact absurd hpos (by rw [hz]; exact lt_irrefl 0)
  · intro hpos
    by_cases hkd : k ∈ desired_state.map Prod.fst
    · by_cases hkc : k ∈ current_state.map Prod.fst
      · obtain ⟨pc, hpc, hpck⟩ := List.mem_map.1 hkc
        rcases pc with ⟨k1, c⟩
        dsimp at hpck
        subst hpck
        obtain ⟨pd, hpd, hpdk⟩ := List.mem_map.1 hkd
        rcases pd with ⟨k2, d⟩
        dsimp at hpdk
        subst hpdk
        by_cases hdiff : records_differ c d = true
        · exact (case2 c d hpc hpd hdiff).2.2.1
        · have hdiff0 : records_differ c d = false := by
            cases hdd : records_differ c d
            · rfl
            · exact absurd hdd hdiff
          have h4 := case4 c d hpc hpd hdiff0
          exact absurd hpos (by rw [h4.2.1]; exact lt_irrefl 0)
      · have h1 := case1 hkd hkc
        exact absurd hpos (by rw [h1.2.1]; exact lt_irrefl 0)
    · have hz : updateKeyCount current_state desired_state k = 0 := by
        rw [hU]
        exact countP_keyed_zero _ k hkd
      exact absurd hpos (by rw [hz]; exact lt_irrefl 0)

/-- Witness for C1 at a concrete pair of one-record states and the key of the
desired record. -/
theorem plan_partition_by_key_witness :
    ("www.A" ∈ [(recordKey recordA, recordA)].map Prod.fst) ∧
      ("www.A" ∉ [(recordKey recordB, recordB)].map Prod.fst) ∧
      (createKeyCount [(recordKey recordB, recordB)] [(recordKey recordA, recordA)]
          "www.A" = 1 ∧
        updateKeyCount [(recordKey recordB, recordB)] [(recordKey recordA, recordA)]
          "www.A" = 0 ∧
        deleteKeyCount [(recordKey recordB, recordB)] [(recordKey recordA, recordA)]
          "www.A" = 0) :=
  ⟨by decide, by decide,
    (plan_partition_by_key [(recordKey recordB, recordB)] [(recordKey recordA, recordA)]
        (by decide) (by decide) (by decide) (by decide) "www.A").1 (by decide) (by decide)⟩

/-- Create entry keys equal the desired keys missing from the current state,
in desired-dict iteration order. -/
theorem plan_create_keys (cur : List (String × DNSRecord)) :
    ∀ des : List (String × DNSRecord), (∀ p ∈ des, p.1 = recordKey p.2) →
      (plan_create_changes cur des).map (fun e => changeKey e.name e.type) =
        (des.map Prod.fst).filter (fun k => (dictGet cur k).isNone) := by
  intro des
  induction des with
  | nil => intro _; rfl
  | cons p rest ih =>
    intro h
    rcases p with ⟨key, d⟩
    have hkey := h (key, d) (List.mem_cons_self _ _)
    dsimp at hkey
    have hrest := ih (fun q hq => h q (List.mem_cons_of_mem _ hq))
    cases hc : dictGet cur key with
    | some c =>
      simp only [plan_create_changes, hc, List.map_cons, List.filter_cons,
        Option.isNone_some, hrest]
      simp
    | none =>
      simp only [plan_create_changes, hc, List.map_cons, List.filter_cons,
        Option.isNone_none, hrest]
      simp [hkey, recordKey]

/-- Update entry keys equal the keys of desired entries that resolve to a
differing current record, in desired-dict iteration order. -/
theorem plan_update_keys (cur : List (String × DNSRecord)) :
    ∀ des : List (String × DNSRecord), (∀ p ∈ des, p.1 = recordKey p.2) →
      (plan_update_changes cur des).map (fun e => changeKey e.name e.type) =
        (des.filter (fun p =>
          match dictGet cur p.1 with
          | some c => records_differ c p.2
          | none => false)).map Prod.fst := by
  intro des
  induction des with
  | nil => intro _; rfl
  | cons p rest ih =>
    intro h
    rcases p with ⟨key, d⟩
    have hkey := h (key, d) (List.mem_cons_self _ _)
    dsimp at hkey
    have hrest := ih (fun q hq => h q (List.mem_cons_of_mem _ hq))
    cases hc : dictGet cur key with
    | some c =>
      by_cases hd : records_differ c d = true
      · simp only [plan_update_changes, hc, hd, if_pos, List.filter_cons, List.map_cons,
          hrest]
        simp [hkey, recordKey, hc, hd]
      · have hd0 : records_differ c d = false := by
          cases hdd : records_differ c d
          · rfl
          · exact absurd hdd hd
        simp only [plan_update_changes, hc, hd0, List.filter_cons]
        simp [hrest]
    | none =>
      simp only [plan_update_changes, hc, List.filter_cons, hrest]
      simp [hc]

/-- Delete entry keys equal the current keys missing from the desired state,
in current-dict iteration order. -/
theorem plan_delete_keys (des : List (String × DNSRecord)) :
    ∀ cur : List (String × DNSRecord), (∀ p ∈ cur, p.1 = recordKey p.2) →
      (plan_delete_changes des cur).map (fun e => changeKey e.name e.type) =
        (cur.map Prod.fst).filter (fun k => (dictGet des k).isNone) := by
  intro cur
  induction cur with
  | nil => intro _; rfl
  | cons p rest ih =>
    intro h
    rcases p with ⟨key, c⟩
    have hkey := h (key, c) (List.mem_cons_self _ _)
    dsimp at hkey
    have hrest := ih (fun q hq => h q (List.mem_cons_of_mem _ hq))
    cases hc : dictGet des key with
    | some d =>
      simp only [plan_delete_changes, hc, List.map_cons, List.filter_cons,
        Option.isNone_some, hrest]
      simp
    | none =>
      simp only [plan_delete_changes, hc, List.map_cons, List.filter_cons,
        Option.isNone_none, hrest]
      simp [hkey, recordKey]

/-- C7 counterexample.  The two concrete desired dicts hold exactly the same
key-record pairs (they are permutations of each other with duplicate-free
keys, i.e. equal as maps) yet produce different plans, and the second plan
lists its create keys as `www.A` before `api.A` — the dict insertion order,
not the natural sort order.  Plan entry order therefore depends on map
insertion order, contradicting the claim. -/
theorem plan_order_depends_on_insertion :
    desiredBA.Perm desiredAB ∧
      (desiredBA.map Prod.fst).Nodup ∧
      (desiredAB.map Prod.fst).Nodup ∧
      generate_deployment_plan [] desiredBA ≠ generate_deployment_plan [] desiredAB ∧
      (generate_deployment_plan [] desiredBA).create.map
        (fun e => changeKey e.name e.type) = ["api.A", "www.A"] ∧
      (generate_deployment_plan [] desiredAB).create.map
        (fun e => changeKey e.name e.type) = ["www.A", "api.A"] := by
  refine ⟨by decide, by decide, by decide, by decide, by decide, by decide⟩

/-- C7 as amended.  Plan generation is a pure function (two invocations on
identical inputs, including insertion order, give identical plans by
construction), and the entries of each list appear in input-map iteration
order rather than sorted key order: create and update entries follow the
desired dict order, delete entries follow the current dict order. -/
theorem plan_preserves_iteration_order
    (current_state desired_state : List (String × DNSRecord))
    (hck : ∀ p ∈ current_state, p.1 = recordKey p.2)
    (hdk : ∀ p ∈ desired_state, p.1 = recordKey p.2) :
    (generate_deployment_plan current_state desired_state).create.map
        (fun e => changeKey e.name e.type) =
      (desired_state.map Prod.fst).filter
        (fun k => (dictGet current_state k).isNone) ∧
    (generate_deployment_plan current_state desired_state).update.map
        (fun e => changeKey e.name e.type) =
      (desired_state.filter (fun p =>
        match dictGet current_state p.1 with
        | some c => records_differ c p.2
        | none => false)).map Prod.fst ∧
    (generate_deployment_plan current_state desired_state).delete.map
        (fun e => changeKey e.name e.type) =
      (current_state.map Prod.fst).filter
        (fun k => (dictGet desired_state k).isNone) := by
  refine ⟨?_, ?_, ?_⟩
  · exact plan_create_keys current_state desired_state hdk
  · exact plan_update_keys current_state desired_state hdk
  · exact plan_delete_keys desired_state current_state hck

/-- Witness for the amended C7 at concrete states. -/
theorem plan_preserves_iteration_order_witness :
    (∀ p ∈ [(recordKey recordB, recordB)], p.1 = recordKey p.2) ∧
      (∀ p ∈ desiredAB, p.1 = recordKey p.2) ∧
      (generate_deployment_plan [(recordKey recordB, recordB)] desiredAB).create.map
          (fun e => changeKey e.name e.type) =
        (desiredAB.map Prod.fst).filter
          (fun k => (dictGet [(recordKey recordB, recordB)] k).isNone) :=
  ⟨by decide, by decide,
    (plan_preserves_iteration_order [(recordKey recordB, recordB)] desiredAB
        (by decide) (by decide)).1⟩

/-- Pruning at a later time subsumes pruning at an earlier time. -/
theorem pruneRequests_pruneRequests (W now tt : Int) (hle : now ≤ tt) (l : List Int) :
    pruneRequests W tt (pruneRequests W now l) = pruneRequests W tt l := by
  simp only [pruneRequests, List.filter_filter]
  apply List.filter_congr
  intro a _
  by_cases h : tt - a < W
  · have h2 : now - a < W := by omega
    simp [h, h2]
  · simp [h]

/-- Admitted times of a run whose first call finds the window full. -/
theorem runAcquires_cons_blocked (N : Nat) (W : Int) (reqs : List Int) (now : Int)
    (rest : List Int) (h : N ≤ (pruneRequests W now reqs).length) :
    (runAcquires N W reqs (now :: rest)).2 =
      (runAcquires N W (pruneRequests W now reqs) rest).2 := by
  simp [runAcquires, acquireStep, h]

/-- Admitted times of a run whose first call is admitted. -/
theorem runAcquires_cons_ok (N : Nat) (W : Int) (reqs : List Int) (now : Int)
    (rest : List Int) (h : ¬N ≤ (pruneRequests W now reqs).length) :
    (runAcquires N W reqs (now :: rest)).2 =
      now :: (runAcquires N W (pruneRequests W now reqs ++ [now]) rest).2 := by
  simp [runAcquires, acquireStep, h]

/-- Window-bound invariant of a serialised acquire history: if the already
admitted times `acc` never exceed `N` in any window and the limiter state
`reqs` agrees with `acc` under pruning at every future call time, then the
whole admitted history stays within `N` per window. -/
theorem runAcquires_window_bound_aux (N : Nat) (W : Int) :
    ∀ (times reqs acc : List Int),
      List.Pairwise (· ≤ ·) times →
      (∀ tt ∈ times, pruneRequests W tt acc = pruneRequests W tt reqs) →
      (∀ x : Int, acc.countP (inWindow W x) ≤ N) →
      ∀ x : Int, ((acc ++ (runAcquires N W reqs times).2).countP (inWindow W x)) ≤ N := by
  intro times
  induction times with
  | nil =>
    intro reqs acc hpw hf hacc x
    simp only [runAcquires, List.append_nil]
    exact hacc x
  | cons now rest ih =>
    intro reqs acc hpw hf hacc x
    have hpw2 := List.pairwise_cons.1 hpw
    by_cases hfull : N ≤ (pruneRequests W now reqs).length
    · rw [runAcquires_cons_blocked N W reqs now rest hfull]
      apply ih (pruneRequests W now reqs) acc hpw2.2 ?_ hacc
      intro tt htt
      rw [hf tt (List.mem_cons_of_mem _ htt)]
      exact (pruneRequests_pruneRequests W now tt (hpw2.1 tt htt) reqs).symm
    · rw [runAcquires_cons_ok N W reqs now rest hfull]
      have hrw : acc ++ now :: (runAcquires N W (pruneRequests W now reqs ++ [now]) rest).2 =
          (acc ++ [now]) ++ (runAcquires N W (pruneRequests W now reqs ++ [now]) rest).2 := by
        simp
      rw [hrw]
      apply ih (pruneRequests W now reqs ++ [now]) (acc ++ [now]) hpw2.2
      · intro tt htt
        have hle := hpw2.1 tt htt
        have h1 : pruneRequests W tt acc = pruneRequests W tt reqs :=
          hf tt (List.mem_cons_of_mem _ htt)
        have h2 : pruneRequests W tt (pruneRequests W now reqs) = pruneRequests W tt reqs :=
          pruneRequests_pruneRequests W now tt hle reqs
        calc pruneRequests W tt (acc ++ [now])
            = pruneRequests W tt acc ++ pruneRequests W tt [now] := by
              simp [pruneRequests, List.filter_append]
          _ = pruneRequests W tt (pruneRequests W now reqs) ++ pruneRequests W tt [now] := by
              rw [h1, h2]
          _ = pruneRequests W tt (pruneRequests W now reqs ++ [now]) := by
              simp [pruneRequests, List.filter_append]
      · intro y
        rw [List.countP_append, List.countP_singleton]
        by_cases hin : inWindow W y now = true
        · have hsub : acc.countP (inWindow W y) ≤
              acc.countP (fun t => decide (now - t < W)) := by
            apply List.countP_mono_left
            intro t _ ht
            simp only [inWindow, Bool.and_eq_true, decide_eq_true_eq] at ht hin ⊢
            omega
          have heq : acc.countP (fun t => decide (now - t < W)) =
              (pruneRequests W now reqs).length := by
            rw [List.countP_eq_length_filter]
            have h0 := hf now (List.mem_cons_self _ _)
            simp only [pruneRequests] at h0
            rw [h0]
            rfl
          have hlt : acc.countP (inWindow W y) < N := by omega
          simp only [hin, if_pos]
          omega
        · have hy := hacc y
          simp only [hin]
          simp
          omega

set_option maxRecDepth 10000 in
/-- C2 counterexample.  In the bulk import flow every task builds its own
client and hence its own `RateLimiter()` (N = 60 per W = 60 seconds).  Two
concurrent tasks that each issue 60 acquires at time 0 are all admitted by
their private limiters, so 120 acquire calls return inside one 60-second
window — twice the claimed combined bound of 60. -/
theorem per_task_limiter_combined_bound_fails :
    (perTaskAdmitted [List.replicate 60 0, List.replicate 60 0]).countP
        (inWindow 60 (-1)) = 120 ∧
      60 < (perTaskAdmitted [List.replicate 60 0, List.replicate 60 0]).countP
        (inWindow 60 (-1)) := by
  constructor <;> decide

/-- C2 as amended.  The N-per-W sliding-window bound holds per `RateLimiter`
instance: for any serialised sequence of acquire calls with nondecreasing
clock readings against one instance, no window of width W contains more than
N admitted (returning) calls.  The combined bound across a bulk execution
does not hold, because `_process_bulk_import` gives every task a fresh client
with a fresh limiter instead of sharing one instance. -/
theorem shared_limiter_window_bound (N : Nat) (W : Int) (times : List Int)
    (hmono : List.Pairwise (· ≤ ·) times) (x : Int) :
    (runAcquires N W [] times).2.countP (inWindow W x) ≤ N := by
  have h := runAcquires_window_bound_aux N W times [] [] hmono
    (fun tt _ => rfl) (fun y => by simp) x
  simpa using h

/-- Witness for the amended C2 at a concrete monotone call sequence. -/
theorem shared_limiter_window_bound_witness :
    List.Pairwise (fun a b => a ≤ b) ([0, 1, 2] : List Int) ∧
      (runAcquires 60 60 [] [0, 1, 2]).2.countP (inWindow 60 0) ≤ 60 :=
  ⟨by decide, shared_limiter_window_bound 60 60 [0, 1, 2] (by decide) 0⟩

/-- After three steps the blocked acquire reaches the configuration where it
waits on the lock it already holds, and that configuration is a fixed point. -/
theorem acquire_machine_stuck (n : Nat) :
    (acquireMachineStep 1 60)^[n + 3]
        { phase := .waitLock, holdsLock := false, requests := [0], now := 1 } =
      { phase := .waitLock, holdsLock := true, requests := [0], now := 60 } := by
  induction n with
  | zero => decide
  | succ n ih =>
    rw [show n + 1 + 3 = (n + 3) + 1 by omega, Function.iterate_succ_apply', ih]
    decide

/-- C3 (code bug).  A call to `acquire` that finds the window full never
returns: with `max_requests = 1`, `window = 60`, one recorded timestamp 0 and
the call arriving at time 1, the task takes the lock, prunes, finds the
window full, sleeps while still holding the lock, then executes
`return await self.acquire()` and waits forever on its own non-reentrant
`asyncio.Lock` — no number of machine steps ever reaches the `returned`
phase (and every other caller blocks on the same held lock). -/
theorem acquire_full_window_never_returns (n : Nat) :
    ((acquireMachineStep 1 60)^[n]
        { phase := .waitLock, holdsLock := false, requests := [0], now := 1 }).phase ≠
      AcquirePhase.returned := by
  rcases n with _ | _ | _ | m
  · decide
  · decide
  · decide
  · rw [acquire_machine_stuck m]
    decide
